import Mathlib

/-! littr.go: ancestor lookup, signature middleware, identity builders, formatting.

A shallow embedding of the parts of the repository the verified properties are
about:

* `app/parent.go`   : the SQL statement `HandleParent` builds and sends;
* `app/api/api.go`  : `keyLoader.GetKey`, `HandleError`, `VerifyHttpSignature`,
                      `BuildObjectIDFromItem`;
* `index.go`        : `Content.ScoreFmt`, `relativeDate`.

Collaborators whose code is not among these files (the PostgreSQL `ltree`
module, the regular-expression operator, `net/url`, `crypto/x509`, `strconv`,
the `httpsig` verifier, the account store) are either modelled from their
documented behaviour, which the definition's comment states, or taken as
parameters, so that the theorems hold whatever they compute.
-/

namespace Littr

/-- Equality of the results of fallible code is decidable when equality of the
values and of the errors is. -/
instance instDecidableEqExcept {ε α : Type} [DecidableEq ε] [DecidableEq α] :
    DecidableEq (Except ε α) := fun a b =>
  match a, b with
  | .ok x, .ok y =>
    if h : x = y then isTrue (by rw [h]) else isFalse (fun e => by cases e; exact h rfl)
  | .error x, .error y =>
    if h : x = y then isTrue (by rw [h]) else isFalse (fun e => by cases e; exact h rfl)
  | .ok _, .error _ => isFalse (fun e => by cases e)
  | .error _, .ok _ => isFalse (fun e => by cases e)

/-! ## `app/parent.go`: the ancestor query -/

/-- A Go `error`, identified by its message. -/
abbrev Error := String

/-- The fields of `url.URL` that `GetKey` reads. -/
structure URL where
  Path : String
  Fragment : String
deriving DecidableEq, Repr

/-- The fields of `models.Account` the API layer reads: the handle, the hash
and `Metadata.Key.Public`, the stored PKIX blob. -/
structure Account where
  Handle : String
  Hash : String
  Public : List Nat
deriving DecidableEq, Repr

/-- A parsed `crypto.PublicKey`. -/
structure PublicKey where
  der : List Nat
deriving DecidableEq, Repr

/-- The `interface{}` that `GetKey` returns: an `error` or a public key. -/
inductive KeyResult where
  | err (e : Error)
  | key (pub : PublicKey)
deriving DecidableEq, Repr

/-- A call `GetKey` makes to a collaborator: `url.Parse`, `db.Config.LoadAccount`
with the `Key` list of its filter, `x509.ParsePKIXPublicKey`. -/
inductive Call where
  | urlParse (id : String)
  | loadAccount (keys : List String)
  | parsePKIX (der : List Nat)
deriving DecidableEq, Repr

/-- The body of an API error response, `eresp`, before it is marshalled. -/
structure eresp where
  Status : Int
  Errors : List (Int × String)
deriving DecidableEq, Repr

/-- The `keyLoader` of `api.go`: the account the last lookup stored. -/
structure keyLoader where
  acc : Account
deriving DecidableEq, Repr

/-- The value stored in a request context. -/
inductive CtxValue where
  | account (a : Account)
  | other (v : String)
deriving DecidableEq, Repr

/-- A `context.Context`: the key/value pairs `context.WithValue` added,
innermost first. -/
abbrev Context := List (String × CtxValue)

/-- The function `context.WithValue(parent, key, val)`. -/
def Context.WithValue (parent : Context) (key : String) (val : CtxValue) : Context :=
  (key, val) :: parent

/-- The method `ctx.Value(key)`: the innermost value stored under the key. -/
def Context.Value (ctx : Context) (key : String) : Option CtxValue :=
  (ctx.find? (fun kv => kv.1 == key)).map (fun kv => kv.2)

/-- An `http.Request`: `Header` is the map `r.Header` read by indexing (`none`
is the `nil` an absent key gives), `ctx` the request context, and the rest of
the request (method, target, body) is what the verifier reads. -/
structure Request where
  Header : String → Option (List String)
  ctx : Context
  rest : String

/-- The method `r.WithContext(ctx)`. -/
def Request.WithContext (r : Request) (ctx : Context) : Request :=
  { r with ctx := ctx }

/-- An `http.ResponseWriter` as the standard server implements it: the header
map, the status once `WriteHeader` has run with the header map as it then was
(what goes on the wire), and the body chunks written. -/
structure ResponseWriter where
  header : List (String × List String)
  status : Option Int
  sentHeader : List (String × List String)
  body : List String
deriving DecidableEq, Repr

/-- The map assignment `w.Header()[key] = vals`. -/
def ResponseWriter.assign (w : ResponseWriter) (key : String) (vals : List String) :
    ResponseWriter :=
  { w with header := (key, vals) :: w.header.filter (fun kv => kv.1 != key) }

/-- The call `w.Header().Set(key, val)` for a key already in canonical form. -/
def ResponseWriter.Set (w : ResponseWriter) (key val : String) : ResponseWriter :=
  w.assign key [val]

/-- The call `w.Header().Del(key)` for a key already in canonical form. -/
def ResponseWriter.Del (w : ResponseWriter) (key : String) : ResponseWriter :=
  { w with header := w.header.filter (fun kv => kv.1 != key) }

/-- The call `w.WriteHeader(code)`: the first call fixes the status and sends
the header map as it is; a later call changes nothing. -/
def ResponseWriter.WriteHeader (w : ResponseWriter) (code : Int) : ResponseWriter :=
  match w.status with
  | some _ => w
  | none => { w with status := some code, sentHeader := w.header }

/-- The call `w.Write(data)`: sends `200` first when no status was written. -/
def ResponseWriter.Write (w : ResponseWriter) (data : String) : ResponseWriter :=
  let w1 := match w.status with
    | some _ => w
    | none => w.WriteHeader 200
  { w1 with body := w1.body ++ [data] }

/-- The value sent on the wire for a header, if the header was sent. -/
def ResponseWriter.sent (w : ResponseWriter) (key : String) : Option (List String) :=
  (w.sentHeader.find? (fun kv => kv.1 == key)).map (fun kv => kv.2)

/-- An entry written through `Logger`. -/
inductive LogEntry where
  | error (msg : String)
  | debug (fields : List (String × String)) (msg : String)
deriving DecidableEq, Repr

/-- What the middleware does to its surroundings, in order: a call of
`v.Verify(r)`, a call of `next.ServeHTTP` with the request it passes on. -/
inductive HandlerCall where
  | verify (rest : String)
  | next (ctx : Context) (rest : String)
deriving DecidableEq, Repr

/-- The collaborators of `api.go` that are not part of the repository's
sources, as parameters:
`urlParse` is `url.Parse`, `pathBase` is `path.Base`, `PathEscape` is
`url.PathEscape`, `LoadAccount` is `db.Config.LoadAccount` applied to a filter
with the given `Key` list (it returns an account and an error, as in Go),
`ParsePKIXPublicKey` is the `crypto/x509` function, `jsonMarshal` is
`json.Marshal` on an `eresp`, `Verify` is `v.Verify(r)` of the `httpsig`
verifier built on the key loader (it may call `GetKey`, which stores the
account it loads, so it returns the loader's new state), `AnonymousAccount` is
`frontend.AnonymousAccount()`, `AccountCtxtKey` is the context key
`models.AccountCtxtKey`, `HostName` is `app.Instance.HostName`,
`HashString` is `models.Hash.String`, `isPrintTable` is `strconv.IsPrint` above
U+00FF and `escapeRune` the escape sequence `strconv` writes for a rune that is
not printable. -/
structure Env where
  urlParse : String → Except Error URL
  pathBase : String → String
  PathEscape : String → String
  LoadAccount : List String → Account × Option Error
  ParsePKIXPublicKey : List Nat → Except Error PublicKey
  jsonMarshal : eresp → String
  Verify : Request → keyLoader → Option Error × keyLoader
  AnonymousAccount : Account
  AccountCtxtKey : String
  HostName : String
  HashString : String → String
  isPrintTable : Char → Bool
  escapeRune : Char → List Char

/-- The method `keyLoader.GetKey(id)`: the value returned, the loader afterwards
and the calls made, in order. -/
def keyLoader.GetKey (env : Env) (k : keyLoader) (id : String) :
    KeyResult × keyLoader × List Call :=
  match env.urlParse id with
  | .error err => (.err err, k, [.urlParse id])
  | .ok u =>
    if u.Fragment ≠ "main-key" then
      -- invalid generated public key id
      (.err "invalid key", k, [.urlParse id])
    else
      let hash := env.pathBase u.Path
      let (acc, err) := env.LoadAccount [hash]
      let k1 : keyLoader := { acc := acc }
      match err with
      | some e => (.err e, k1, [.urlParse id, .loadAccount [hash]])
      | none =>
        match env.ParsePKIXPublicKey k1.acc.Public with
        | .error e =>
          (.err e, k1, [.urlParse id, .loadAccount [hash], .parsePKIX k1.acc.Public])
        | .ok pub =>
          (.key pub, k1, [.urlParse id, .loadAccount [hash], .parsePKIX k1.acc.Public])

/-- The function `HandleError(w, r, code, errs...)`: the response writer and the
log afterwards. -/
def HandleError (env : Env) (w : ResponseWriter) (log : List LogEntry) (code : Int)
    (errs : List Error) : ResponseWriter × List LogEntry :=
  let w1 := w.Set "Content-Type" "application/json; charset=utf-8"
  let w2 := w1.WriteHeader code
  let res : eresp := { Status := code, Errors := errs.map (fun err => (0, err)) }
  let log1 := log ++ errs.map (fun err => LogEntry.error err)
  let j := env.jsonMarshal res
  let w3 := w2.Del "Cookie"
  (w3.Write j, log1)

/-- The function `strconv.IsPrint` on a rune: up to U+00FF the printable runes
are U+0020..U+007E and U+00A1..U+00FF without U+00AD; above, a table decides. -/
def IsPrint (env : Env) (c : Char) : Bool :=
  if c.val.toNat ≤ 0xFF then
    (0x20 ≤ c.val.toNat && c.val.toNat ≤ 0x7E) || (0xA1 ≤ c.val.toNat && c.val.toNat != 0xAD)
  else env.isPrintTable c

/-- One rune of a quoted string (`appendEscapedRune` with a double quote): the
quote and the backslash get a backslash, a printable rune stands for itself,
any other rune is written as an escape sequence. -/
def quoteRune (env : Env) (c : Char) : List Char :=
  if c = '"' ∨ c = '\\' then ['\\', c]
  else if IsPrint env c then [c]
  else env.escapeRune c

/-- The verb `%q` of `fmt` on a string (`strconv.Quote`): the runes escaped one
by one, between double quotes. -/
def Quote (env : Env) (s : String) : String :=
  String.mk (['"'] ++ (s.data.map (quoteRune env)).flatten ++ ['"'])

/-- The `httpsig` verifier, `SetRequiredHeaders(headers)` then
`RequiredHeaders()`: the headers are kept in lower case, and an empty list
stands for `date`. -/
def RequiredHeaders (headers : List String) : List String :=
  let hs := if headers.isEmpty then ["date"] else headers
  hs.map (fun h => String.mk (h.data.map Char.toLower))

/-- The challenge `VerifyHttpSignature` computes once, before it builds the
handler. -/
def challenge (env : Env) : String :=
  let realm := env.HostName
  let headers := RequiredHeaders ["(request-target)", "host", "date"]
  let p1 : List String := if realm ≠ "" then ["realm=" ++ Quote env realm] else []
  let p2 : List String :=
    if headers.length > 0 then p1 ++ ["headers=" ++ Quote env (" ".intercalate headers)]
    else p1
  if p2.length > 0 then "Signature" ++ (" " ++ ", ".intercalate p2) else "Signature"

/-- What the handler of `VerifyHttpSignature` acts on: the key loader its
closure captured, the response writer, the log, and the calls made so far. -/
structure World where
  getter : keyLoader
  w : ResponseWriter
  log : List LogEntry
  calls : List HandlerCall

/-- The tail of the handler: the account is stored in the request context and
the next handler serves the request. -/
def serveNext (env : Env) (next : Request → ResponseWriter → ResponseWriter)
    (acct : Account) (r : Request) (s : World) : World :=
  let ctx := r.ctx.WithValue env.AccountCtxtKey (.account acct)
  let r1 := r.WithContext ctx
  { s with w := next r1 s.w, calls := s.calls ++ [.next r1.ctx r1.rest] }

/-- The handler `VerifyHttpSignature(next)` returns, applied to one request. -/
def VerifyHttpSignature (env : Env) (next : Request → ResponseWriter → ResponseWriter)
    (r : Request) (s : World) : World :=
  let acct := env.AnonymousAccount
  match r.Header "Authorization" with
  | some _ =>
    -- only verify http-signature if present
    let (verr, getter1) := env.Verify r s.getter
    let s1 : World := { s with getter := getter1, calls := s.calls ++ [.verify r.rest] }
    match verr with
    | some err =>
      let w1 := s1.w.assign "WWW-Authenticate" [challenge env]
      let (w2, log2) := HandleError env w1 s1.log 401 [err]
      { s1 with w := w2, log := log2 }
    | none =>
      let acct1 := s1.getter.acc
      let s2 : World := { s1 with log := s1.log ++
        [.debug [("handle", acct1.Handle), ("hash", acct1.Hash)]
          "loaded account from http signature header saved to context"] }
      serveNext env next acct1 r s2
  | none => serveNext env next acct r s

/-- The fields of `models.Item` that `BuildObjectIDFromItem` reads;
`SubmittedBy` is a pointer, `none` when it is `nil`. -/
structure Item where
  Hash : String
  SubmittedBy : Option Account
deriving DecidableEq, Repr

/-- The function `BuildObjectIDFromItem(i)`; `AccountsURL` and `BaseURL` are the
package variables of that name. -/
def BuildObjectIDFromItem (env : Env) (AccountsURL BaseURL : String) (i : Item) :
    String × Bool :=
  if i.Hash.length = 0 then ("", false)
  else
    match i.SubmittedBy with
    | some submitter =>
      let handle := submitter.Handle
      (AccountsURL ++ "/" ++ env.PathEscape handle ++ "/outbox/" ++
        env.PathEscape (env.HashString i.Hash), true)
    | none => (BaseURL ++ "/outbox/" ++ env.PathEscape (env.HashString i.Hash), true)

/-! ## `index.go`: score and date formatting

A `float64` value is modelled by the rational number it stands for.  In
`ScoreFmt` every operation that rounds (the conversion of the score and the
divisions) rounds to the nearest `float64`, ties to even, as the code does; the
function `math.Log10`, whose result is not the correctly rounded one, is a
parameter.  In `relativeDate` the values are the exact ones; what is proved of
it depends on two comparisons only, on which the exact and the rounded values
agree. -/

/-- The constant `ScoreMultiplier`. -/
def ScoreMultiplier : ℚ := 10000

/-- The constant `ScoreMaxK`. -/
def ScoreMaxK : ℚ := 10000

/-- The constant `ScoreMaxM`. -/
def ScoreMaxM : ℚ := 10000000

/-- The constant `ScoreMaxB`. -/
def ScoreMaxB : ℚ := 10000000000

/-- The verb `%d` of `fmt` on an integer. -/
def fmtD (n : Int) : String :=
  if n < 0 then "-" ++ Nat.repr n.natAbs else Nat.repr n.natAbs

/-- Rounding to the nearest integer, a tie going to the even one: the rounding
of the `%f` verbs. -/
def roundHalfEven (x : ℚ) : Int :=
  let f := ⌊x⌋
  let r := x - f
  if r < 1 / 2 then f
  else if 1 / 2 < r then f + 1
  else if f % 2 = 0 then f else f + 1

/-- The verb `%3.1f` of `fmt`: the sign, then the magnitude rounded to one
decimal place (the width 3 is that of the shortest output, `0.0`). -/
def fmtF1 (x : ℚ) : String :=
  let r := (roundHalfEven (|x| * 10)).toNat
  (if x < 0 then "-" else "") ++ (Nat.repr (r / 10) ++ "." ++ Nat.repr (r % 10))

/-- The verb `%.0f` of `fmt`: the sign, then the magnitude rounded to an
integer. -/
def fmtF0 (x : ℚ) : String :=
  (if x < 0 then "-" else "") ++ Nat.repr (roundHalfEven |x|).toNat

/-- The `float64` nearest to `x`, a tie going to the value whose significand is
even: the rounding of a conversion to `float64` and of every `float64`
operation.  A `float64` between `2^e` and `2^(e+1)` is a multiple of
`2^(e-52)` (53 significant bits); the exponent range of `float64`, which no
value computed from an `int64` score leaves, is not modelled. -/
def toFloat64 (x : ℚ) : ℚ :=
  if x = 0 then 0
  else (roundHalfEven (x / 2 ^ (Int.log 2 |x| - 52)) : ℚ) * 2 ^ (Int.log 2 |x| - 52)

/-- The local variable `base` of `ScoreFmt`:
`float64(c.Score) / ScoreMultiplier`. -/
def ScoreFmt.base (Score : Int) : ℚ :=
  toFloat64 (toFloat64 (Score : ℚ) / ScoreMultiplier)

/-- The method `Content.ScoreFmt` on a content item of the given `Score`.
`ceilLog10 x` is `math.Ceil(math.Log10(x))` for `x > 0`; `math.Log10(0)` is
`-Inf`, below every bound. -/
def ScoreFmt (ceilLog10 : ℚ → Int) (Score : Int) : String :=
  let base : ℚ := ScoreFmt.base Score
  let dLt (bound : Int) : Bool := decide (|base| = 0) || decide (ceilLog10 |base| < bound)
  if dLt 5 then
    fmtD ⌈base⌉
  else if dLt 8 then
    fmtF1 (toFloat64 (base / ScoreMaxK)) ++ "K"
  else if dLt 11 then
    fmtF1 (toFloat64 (base / ScoreMaxM)) ++ "M"
  else if dLt 13 then
    fmtF1 (toFloat64 (base / ScoreMaxB)) ++ "B"
  else
    (if base < 0 then "-" else "") ++ "∞"

/-- The exact value of `⌈log₁₀ x⌉` for `x > 0`. -/
def ceilLog10Exact (x : ℚ) : Int :=
  if 1 ≤ x then (Nat.clog 10 ⌈x⌉₊ : Int) else -(Nat.log 10 ⌊x⁻¹⌋₊ : Int)

/-- The function `math.Mod(x, y)` for `x ≥ 0` and `y > 0`. -/
def Mod (x y : ℚ) : ℚ := x - y * ⌊x / y⌋

/-- The function `math.Round`: nearest integer, a tie going away from zero. -/
def Round (x : ℚ) : Int :=
  if 0 ≤ x then ⌊x + 1 / 2⌋ else -⌊-x + 1 / 2⌋

/-- The closure `pluralize` of `relativeDate`. -/
def pluralize (d : ℚ) (unit : String) : String :=
  if Round d ≠ 1 then unit ++ "s" else unit

/-- The method `Duration.Seconds` of a duration of `i` nanoseconds. -/
def Seconds (i : Int) : ℚ := (i : ℚ) / 1000000000

/-- The method `Duration.Minutes` of a duration of `i` nanoseconds. -/
def Minutes (i : Int) : ℚ := (i : ℚ) / 60000000000

/-- The method `Duration.Hours` of a duration of `i` nanoseconds. -/
def Hours (i : Int) : ℚ := (i : ℚ) / 3600000000000

/-- The value and the unit `relativeDate` picks for an interval that is not
rendered as `now`. -/
def relativeDateValUnit (hours minutes seconds : ℚ) : ℚ × String :=
  if hours < 1 then
    if minutes < 1 then (Mod seconds 60, "second")
    else (Mod minutes 60, "minute")
  else if hours < 24 then (Mod hours 24, "hour")
  else if hours < 168 then (hours / 24, "day")
  else if hours < 672 then (hours / 168, "week")
  else if hours < 8760 then (hours / 672, "month")
  else (hours / 8760, "year")

/-- The function `relativeDate(c)` as a function of `i = time.Now().Sub(c)`, a
`time.Duration` in nanoseconds: positive for a timestamp in the past, negative
for one in the future. -/
def relativeDate (i : Int) : String :=
  let hours := |Hours i|
  let minutes := |Minutes i|
  let seconds := |Seconds i|
  -- we're in the future
  let when := if Seconds i < 0 then "in the future" else "ago"
  if seconds < 30 then "now"
  else
    let vu := relativeDateValUnit hours minutes seconds
    fmtF0 vu.1 ++ " " ++ pluralize vu.1 vu.2 ++ " " ++ when

/-! ## Concrete collaborators, for evaluating the definitions -/

/-- The account stored under the key `e33c4ff5`. -/
def storedAccount : Account :=
  { Handle := "alice", Hash := "e33c4ff5", Public := [48, 130, 1, 34] }

/-- The anonymous account. -/
def anonymousAccount : Account :=
  { Handle := "anonymous", Hash := "", Public := [] }

/-- The zero value of `models.Account`. -/
def zeroAccount : Account :=
  { Handle := "", Hash := "", Public := [] }

/-- A request: `auth` is its `Authorization` header, if it has one. -/
def requestWith (auth : Option (List String)) : Request :=
  { Header := fun k => if k = "Authorization" then auth else none,
    ctx := [("trace", .other "t1")],
    rest := "GET /api/accounts" }

/-- Collaborators with the values they take on a few inputs: `url.Parse` and
`path.Base` on three key IDs, an account store that holds `storedAccount`
only, a verifier that rejects every signature but `good`, the host name
`host`, and no printable rune above U+00FF. -/
def envWithHost (host : String) : Env where
  urlParse id :=
    if id = "http://littr.git/api/accounts/e33c4ff5#main-key" then
      .ok { Path := "/api/accounts/e33c4ff5", Fragment := "main-key" }
    else if id = "http://littr.git/api/accounts/e33c4ff5#other-key" then
      .ok { Path := "/api/accounts/e33c4ff5", Fragment := "other-key" }
    else if id = "http://littr.git/api/accounts/00000000#main-key" then
      .ok { Path := "/api/accounts/00000000", Fragment := "main-key" }
    else .error "parse error"
  pathBase p :=
    if p = "/api/accounts/e33c4ff5" then "e33c4ff5"
    else if p = "/api/accounts/00000000" then "00000000"
    else p
  PathEscape x := x
  LoadAccount keys :=
    if keys = ["e33c4ff5"] then (storedAccount, none)
    else (zeroAccount, some "account not found")
  ParsePKIXPublicKey der :=
    if der = [] then .error "asn1: syntax error" else .ok { der := der }
  jsonMarshal res := String.join (res.Errors.map (fun e => e.2))
  Verify r k :=
    if r.Header "Authorization" = some ["good"] then (none, { acc := storedAccount })
    else (some "signature verification failed", k)
  AnonymousAccount := anonymousAccount
  AccountCtxtKey := "__acct"
  HostName := host
  HashString h := h
  isPrintTable _ := false
  escapeRune _ := ['?']

/-- A next handler: it answers `200` with a fixed body. -/
def okHandler (_ : Request) (w : ResponseWriter) : ResponseWriter :=
  (w.WriteHeader 200).Write "ok"

/-- The state in which the server hands a fresh response writer to the
handler. -/
def freshWorld : World :=
  { getter := { acc := zeroAccount },
    w := { header := [], status := none, sentHeader := [], body := [] },
    log := [],
    calls := [] }

/-! ## `internal/log/logger.go`: the logger and its context

The methods are modelled one call at a time (the mutex `m` is what makes a
call atomic); values of type `interface{}` are strings. -/

/-- The type `Level` and its constants. -/
inductive Level where
  | PanicLevel
  | FatalLevel
  | ErrorLevel
  | WarnLevel
  | InfoLevel
  | DebugLevel
  | TraceLevel
deriving DecidableEq, Repr

/-- The type `Ctx`, a `map[string]interface{}`: its key/value pairs. -/
abbrev Ctx := List (String × String)

/-- The map assignment `m[k] = v`: the value of a key the map holds is
replaced, a new key is added. -/
def Ctx.assign (m : Ctx) (k v : String) : Ctx :=
  if m.any (fun kv => kv.1 == k) then m.map (fun kv => if kv.1 == k then (k, v) else kv)
  else m ++ [(k, v)]

/-- One argument of `WithContext(ctx ...interface{})`: a `Ctx`, or a value of
another type. -/
inductive CtxArg where
  | ctx (c : Ctx)
  | other (v : String)
deriving DecidableEq, Repr

/-- What the logrus logger `l.l` receives from a call
`l.l.WithFields(fields).Debug(msg)` (or `Info`, `Warn`, `Error`): the level,
the fields and the message. -/
structure Entry where
  level : Level
  fields : Ctx
  msg : String
deriving DecidableEq, Repr

/-- The struct `logger`: `ctx` is the context map (`none` is `nil`), and `l`,
the logrus logger, is represented by the entries it has received, in order. -/
structure logger where
  l : List Entry
  ctx : Option Ctx
deriving DecidableEq, Repr

/-- The function `context(l)`: a fresh `logrus.Fields` holding a copy of every
pair of `l.ctx`, none when `l.ctx` is `nil`. -/
def context (l : logger) : Ctx :=
  match l.ctx with
  | none => []
  | some c => c

/-- The method `logger.WithContext(ctx...)`: a `nil` context becomes an empty
map, then the pairs of every argument of type `Ctx` are assigned, in order;
arguments of another type are skipped. -/
def logger.WithContext (l : logger) (ctx : List CtxArg) : logger :=
  let m0 : Ctx := match l.ctx with
    | none => []
    | some c => c
  { l with ctx := some (ctx.foldl (fun m c =>
      match c with
      | .ctx cc => cc.foldl (fun m1 kv => m1.assign kv.1 kv.2) m
      | .other _ => m) m0) }

/-- The call `l.l.WithFields(context(l)).<level>(msg)`. -/
def logger.emit (l : logger) (level : Level) (msg : String) : logger :=
  { l with l := l.l ++ [{ level := level, fields := context l, msg := msg }] }

/-- The method `logger.Debug(msg)`. -/
def logger.Debug (l : logger) (msg : String) : logger :=
  { l.emit .DebugLevel msg with ctx := none }

/-- The method `logger.Debugf(msg, p...)`; `Sprintf` is `fmt.Sprintf`. -/
def logger.Debugf (Sprintf : String → List String → String) (l : logger) (msg : String)
    (p : List String) : logger :=
  { l.emit .DebugLevel (Sprintf msg p) with ctx := none }

/-- The method `logger.Info(msg)`. -/
def logger.Info (l : logger) (msg : String) : logger :=
  { l.emit .InfoLevel msg with ctx := none }

/-- The method `logger.Infof(msg, p...)`: it sets `l.ctx = nil` first, then
logs, then sets `l.ctx = nil` again. -/
def logger.Infof (Sprintf : String → List String → String) (l : logger) (msg : String)
    (p : List String) : logger :=
  let l1 : logger := { l with ctx := none }
  { l1.emit .InfoLevel (Sprintf msg p) with ctx := none }

/-- The method `logger.Warn(msg)`. -/
def logger.Warn (l : logger) (msg : String) : logger :=
  { l.emit .WarnLevel msg with ctx := none }

/-- The method `logger.Warnf(msg, p...)`. -/
def logger.Warnf (Sprintf : String → List String → String) (l : logger) (msg : String)
    (p : List String) : logger :=
  { l.emit .WarnLevel (Sprintf msg p) with ctx := none }

/-- The method `logger.Error(msg)`. -/
def logger.Error (l : logger) (msg : String) : logger :=
  { l.emit .ErrorLevel msg with ctx := none }

/-- The method `logger.Errorf(msg, p...)`. -/
def logger.Errorf (Sprintf : String → List String → String) (l : logger) (msg : String)
    (p : List String) : logger :=
  { l.emit .ErrorLevel (Sprintf msg p) with ctx := none }

/-- The value of `fmt.Sprintf` on a format without verbs and no arguments: the
format itself. -/
def plainSprintf (msg : String) (_ : List String) : String := msg

/-- A logger as `Dev` or `Prod` returns it: nothing logged, `ctx` is `nil`. -/
def newLogger : logger := { l := [], ctx := none }

/-! ## Theorems -/

/-- C3.  A request without an `Authorization` header: the handler makes one
call, `next.ServeHTTP`, with the request whose context holds the anonymous
account under `models.AccountCtxtKey`; the verifier is not called, the
response writer is touched by the next handler only, nothing is logged and
the key loader is left as it was. -/
theorem VerifyHttpSignature_no_authorization (env : Env)
    (next : Request → ResponseWriter → ResponseWriter) (r : Request) (s : World)
    (h : r.Header "Authorization" = none) :
    (VerifyHttpSignature env next r s).calls
      = s.calls ++ [.next (r.ctx.WithValue env.AccountCtxtKey (.account env.AnonymousAccount)) r.rest] ∧
    (r.ctx.WithValue env.AccountCtxtKey (.account env.AnonymousAccount)).Value env.AccountCtxtKey
      = some (.account env.AnonymousAccount) ∧
    (VerifyHttpSignature env next r s).w
      = next (r.WithContext (r.ctx.WithValue env.AccountCtxtKey (.account env.AnonymousAccount))) s.w ∧
    (VerifyHttpSignature env next r s).log = s.log ∧
    (VerifyHttpSignature env next r s).getter = s.getter := by
  simp [VerifyHttpSignature, h, serveNext, Request.WithContext, Context.WithValue,
    Context.Value]

/-- C3 witness: a request with no `Authorization` header, on a fresh response
writer. -/
theorem VerifyHttpSignature_no_authorization_witness :
    (VerifyHttpSignature (envWithHost "littr.git") okHandler (requestWith none) freshWorld).calls
      = freshWorld.calls ++
        [.next ((requestWith none).ctx.WithValue (envWithHost "littr.git").AccountCtxtKey
          (.account (envWithHost "littr.git").AnonymousAccount)) (requestWith none).rest] :=
  (VerifyHttpSignature_no_authorization (envWithHost "littr.git") okHandler (requestWith none)
    freshWorld (by rfl)).1

/-- C4.  A key ID that parses as a URL whose fragment is not `main-key`:
`GetKey` returns the error `invalid key`, the only call it made is
`url.Parse` (so `LoadAccount` was not called), and the loader is unchanged. -/
theorem GetKey_fragment_not_main_key (env : Env) (k : keyLoader) (id : String) (u : URL)
    (hu : env.urlParse id = .ok u) (hf : u.Fragment ≠ "main-key") :
    k.GetKey env id = (.err "invalid key", k, [.urlParse id]) ∧
    (∀ keys, Call.loadAccount keys ∉ (k.GetKey env id).2.2) ∧
    (k.GetKey env id).2.1.acc = k.acc := by
  have h : k.GetKey env id = (.err "invalid key", k, [.urlParse id]) := by
    simp [keyLoader.GetKey, hu, hf]
  rw [h]
  simp

/-- C4 witness: the key ID `…/accounts/e33c4ff5#other-key`, whose account is
stored. -/
theorem GetKey_fragment_not_main_key_witness :
    keyLoader.GetKey (envWithHost "littr.git") { acc := zeroAccount }
        "http://littr.git/api/accounts/e33c4ff5#other-key"
      = (.err "invalid key", { acc := zeroAccount },
          [.urlParse "http://littr.git/api/accounts/e33c4ff5#other-key"]) :=
  (GetKey_fragment_not_main_key (envWithHost "littr.git") { acc := zeroAccount }
    "http://littr.git/api/accounts/e33c4ff5#other-key"
    { Path := "/api/accounts/e33c4ff5", Fragment := "other-key" } (by rfl) (by decide)).1

/-- C5.  A key ID with fragment `main-key` for which the account lookup
fails: `GetKey` returns the very error of the lookup, and the calls it made
are `url.Parse` and `LoadAccount` on the last path segment, so
`x509.ParsePKIXPublicKey` was not called. -/
theorem GetKey_account_not_found (env : Env) (k : keyLoader) (id : String) (u : URL)
    (a : Account) (e : Error)
    (hu : env.urlParse id = .ok u) (hf : u.Fragment = "main-key")
    (hl : env.LoadAccount [env.pathBase u.Path] = (a, some e)) :
    (k.GetKey env id).1 = .err e ∧
    (k.GetKey env id).2.2 = [.urlParse id, .loadAccount [env.pathBase u.Path]] ∧
    (∀ der, Call.parsePKIX der ∉ (k.GetKey env id).2.2) := by
  have h : k.GetKey env id
      = (.err e, { acc := a }, [.urlParse id, .loadAccount [env.pathBase u.Path]]) := by
    simp [keyLoader.GetKey, hu, hf, hl]
  rw [h]
  simp

/-- C5 witness: the key ID `…/accounts/00000000#main-key`, which no stored
account has. -/
theorem GetKey_account_not_found_witness :
    (keyLoader.GetKey (envWithHost "littr.git") { acc := zeroAccount }
        "http://littr.git/api/accounts/00000000#main-key").1
      = .err "account not found" :=
  (GetKey_account_not_found (envWithHost "littr.git") { acc := zeroAccount }
    "http://littr.git/api/accounts/00000000#main-key"
    { Path := "/api/accounts/00000000", Fragment := "main-key" } zeroAccount
    "account not found" (by rfl) (by rfl) (by rfl)).1

/-- The required headers the verifier reports are the three the middleware
set. -/
theorem RequiredHeaders_set :
    RequiredHeaders ["(request-target)", "host", "date"] = ["(request-target)", "host", "date"] := by
  decide

/-- Quoting the list of required headers escapes nothing. -/
theorem Quote_required (env : Env) :
    Quote env "(request-target) host date" = "\"(request-target) host date\"" := by
  rfl

/-- The challenge for a configured, non-empty host name. -/
theorem challenge_eq (env : Env) (hhost : env.HostName ≠ "") :
    challenge env
      = "Signature realm=" ++ Quote env env.HostName
          ++ ", headers=\"(request-target) host date\"" := by
  unfold challenge
  simp only [RequiredHeaders_set, hhost, ne_eq, not_false_eq_true, if_true]
  have hq : Quote env (" ".intercalate ["(request-target)", "host", "date"])
      = "\"(request-target) host date\"" := Quote_required env
  rw [hq]
  apply String.ext
  simp [String.intercalate, String.intercalate.go, String.data_append]

/-- Quoting a string without a double quote, a backslash or a rune that is not
printable puts it between double quotes unchanged. -/
theorem Quote_plain (env : Env) (s : String)
    (h : ∀ c ∈ s.data, c ≠ '"' ∧ c ≠ '\\' ∧ IsPrint env c = true) :
    Quote env s = "\"" ++ s ++ "\"" := by
  have hflat : ∀ l : List Char, (∀ c ∈ l, c ≠ '"' ∧ c ≠ '\\' ∧ IsPrint env c = true) →
      (l.map (quoteRune env)).flatten = l := by
    intro l
    induction l with
    | nil => intro _; rfl
    | cons c cs ih =>
      intro hl
      have hc := hl c (List.mem_cons_self _ _)
      have hcs := ih (fun d hd => hl d (List.mem_cons_of_mem _ hd))
      have hq : quoteRune env c = [c] := by
        simp [quoteRune, hc.1, hc.2.1, hc.2.2]
      simp [hq, hcs]
  apply String.ext
  simp [Quote, hflat s.data h, String.data_append]

/-- C6 (as amended).  A request with an `Authorization` header that the
verifier rejects, a configured non-empty host name, and a response not yet
started: the response has status 401 and carries the header
`WWW-Authenticate` with the one value
`Signature realm=<q>, headers="(request-target) host date"`, where `<q>` is
the host name as the verb `%q` quotes it; `<q>` is the host name between
double quotes, unchanged, when it has no double quote, backslash or
non-printable rune.  The handler called the verifier and nothing else: the
next handler is not called, so no request context with an account is built. -/
theorem VerifyHttpSignature_rejected (env : Env)
    (next : Request → ResponseWriter → ResponseWriter) (r : Request) (s : World)
    (v : List String) (err : Error) (g1 : keyLoader)
    (hauth : r.Header "Authorization" = some v)
    (hver : env.Verify r s.getter = (some err, g1))
    (hhost : env.HostName ≠ "")
    (hfresh : s.w.status = none) :
    (VerifyHttpSignature env next r s).w.status = some 401 ∧
    (VerifyHttpSignature env next r s).w.sent "WWW-Authenticate"
      = some ["Signature realm=" ++ Quote env env.HostName
          ++ ", headers=\"(request-target) host date\""] ∧
    ((∀ c ∈ env.HostName.data, c ≠ '"' ∧ c ≠ '\\' ∧ IsPrint env c = true) →
      Quote env env.HostName = "\"" ++ env.HostName ++ "\"") ∧
    (VerifyHttpSignature env next r s).calls = s.calls ++ [.verify r.rest] ∧
    (VerifyHttpSignature env next r s).w.body
      = s.w.body ++ [env.jsonMarshal { Status := 401, Errors := [(0, err)] }] := by
  have hch := challenge_eq env hhost
  refine ⟨?_, ?_, Quote_plain env env.HostName, ?_, ?_⟩
  · simp [VerifyHttpSignature, hauth, hver, HandleError, ResponseWriter.assign,
      ResponseWriter.Set, ResponseWriter.WriteHeader, ResponseWriter.Write,
      ResponseWriter.Del, hfresh]
  · simp [VerifyHttpSignature, hauth, hver, HandleError, ResponseWriter.assign,
      ResponseWriter.Set, ResponseWriter.WriteHeader, ResponseWriter.Write,
      ResponseWriter.Del, ResponseWriter.sent, hfresh, hch]
  · simp [VerifyHttpSignature, hauth, hver, HandleError]
  · simp [VerifyHttpSignature, hauth, hver, HandleError, ResponseWriter.assign,
      ResponseWriter.Set, ResponseWriter.WriteHeader, ResponseWriter.Write,
      ResponseWriter.Del, hfresh]

/-- C6 witness: the host name `littr.git` and a request whose signature the
verifier rejects, on a fresh response writer. -/
theorem VerifyHttpSignature_rejected_witness :
    (VerifyHttpSignature (envWithHost "littr.git") okHandler (requestWith (some ["bad"]))
        freshWorld).w.sent "WWW-Authenticate"
      = some ["Signature realm=" ++ Quote (envWithHost "littr.git") "littr.git"
          ++ ", headers=\"(request-target) host date\""] :=
  (VerifyHttpSignature_rejected (envWithHost "littr.git") okHandler (requestWith (some ["bad"]))
    freshWorld ["bad"] "signature verification failed" freshWorld.getter
    (by rfl) (by rfl) (by decide) (by rfl)).2.1

/-- C6 counterexample.  With the host name `a"b` the header sent is
`Signature realm="a\"b", headers="(request-target) host date"`: the double
quote of the host name is escaped, so the value is not the host name between
double quotes. -/
theorem VerifyHttpSignature_rejected_counterexample :
    (VerifyHttpSignature (envWithHost "a\"b") okHandler (requestWith (some ["bad"]))
        freshWorld).w.sent "WWW-Authenticate"
      = some ["Signature realm=\"a\\\"b\", headers=\"(request-target) host date\""] ∧
    "Signature realm=\"a\\\"b\", headers=\"(request-target) host date\""
      ≠ "Signature realm=" ++ ("\"" ++ "a\"b" ++ "\"")
          ++ ", headers=\"(request-target) host date\"" ∧
    (envWithHost "a\"b").HostName ≠ "" := by
  decide

/-- Rounding leaves a whole number unchanged. -/
theorem roundHalfEven_intCast (n : Int) : roundHalfEven (n : ℚ) = n := by
  simp [roundHalfEven]

/-- Rounding to the nearest integer does not go below the floor. -/
theorem floor_le_roundHalfEven (y : ℚ) : ⌊y⌋ ≤ roundHalfEven y := by
  unfold roundHalfEven
  simp only
  split_ifs <;> omega

/-- Rounding to the nearest integer, ties to even, commutes with the change of
sign. -/
theorem roundHalfEven_neg (y : ℚ) : roundHalfEven (-y) = -roundHalfEven y := by
  by_cases hint : (⌊y⌋ : ℚ) = y
  · have h1 : roundHalfEven y = ⌊y⌋ := by
      conv_lhs => rw [← hint]
      exact roundHalfEven_intCast _
    have h2 : roundHalfEven (-y) = -⌊y⌋ := by
      have : -y = ((-⌊y⌋ : Int) : ℚ) := by push_cast; rw [hint]
      rw [this]; exact roundHalfEven_intCast _
    rw [h1, h2]
  · have hfl : (⌊y⌋ : ℚ) < y := lt_of_le_of_ne (Int.floor_le y) hint
    have hlt : y < ⌊y⌋ + 1 := Int.lt_floor_add_one y
    have hneg : ⌊-y⌋ = -⌊y⌋ - 1 := by
      rw [Int.floor_eq_iff]
      push_cast
      constructor <;> linarith
    unfold roundHalfEven
    simp only [hneg]
    push_cast
    set f := ⌊y⌋ with hf
    by_cases c1 : y - f < 1 / 2
    · have c1' : ¬ (-y - (-(f : ℚ) - 1) < 1 / 2) := by linarith
      have c2' : (1 : ℚ) / 2 < -y - (-(f : ℚ) - 1) := by linarith
      simp only [c1, c1', c2', if_true, if_false]
      omega
    · by_cases c2 : 1 / 2 < y - f
      · have c1' : (-y - (-(f : ℚ) - 1) < 1 / 2) := by linarith
        simp only [c1, c2, c1', if_true, if_false]
        omega
      · have c1' : ¬ (-y - (-(f : ℚ) - 1) < 1 / 2) := by linarith
        have c2' : ¬ ((1 : ℚ) / 2 < -y - (-(f : ℚ) - 1)) := by linarith
        simp only [c1, c2, c1', c2', if_false]
        split_ifs <;> omega

/-- The binary exponent of a number between `2^e` and `2^(e+1)` is `e`. -/
theorem log2_eq (x : ℚ) (e : Int) (h1 : (2 : ℚ) ^ e ≤ |x|) (h2 : |x| < (2 : ℚ) ^ (e + 1)) :
    Int.log 2 |x| = e := by
  have hpos : 0 < |x| := lt_of_lt_of_le (zpow_pos (by norm_num) e) h1
  have ha : e ≤ Int.log 2 |x| :=
    (Int.zpow_le_iff_le_log (by norm_num) hpos).1 (by simpa using h1)
  have hb : Int.log 2 |x| < e + 1 :=
    (Int.lt_zpow_iff_log_lt (by norm_num) hpos).1 (by simpa using h2)
  omega

/-- The `float64` nearest to a number between `2^e` and `2^(e+1)`: the nearest
multiple of `2^(e-52)`. -/
theorem toFloat64_of_log (x : ℚ) (e : Int) (h1 : (2 : ℚ) ^ e ≤ |x|)
    (h2 : |x| < (2 : ℚ) ^ (e + 1)) :
    toFloat64 x = (roundHalfEven (x / 2 ^ (e - 52)) : ℚ) * 2 ^ (e - 52) := by
  have hpos : 0 < |x| := lt_of_lt_of_le (zpow_pos (by norm_num) e) h1
  have hx : x ≠ 0 := abs_pos.mp hpos
  unfold toFloat64
  rw [if_neg hx, log2_eq x e h1 h2]

/-- A multiple of `2^(e-52)` between `2^e` and `2^(e+1)` is a `float64`. -/
theorem toFloat64_exact (x : ℚ) (e m : Int) (h1 : (2 : ℚ) ^ e ≤ |x|)
    (h2 : |x| < (2 : ℚ) ^ (e + 1)) (hm : x / 2 ^ (e - 52) = (m : ℚ)) :
    toFloat64 x = x := by
  rw [toFloat64_of_log x e h1 h2, hm, roundHalfEven_intCast, ← hm]
  have hu : (2 : ℚ) ^ (e - 52) ≠ 0 := zpow_ne_zero _ (by norm_num)
  field_simp

/-- Rounding to `float64` commutes with the change of sign. -/
theorem toFloat64_neg (x : ℚ) : toFloat64 (-x) = -toFloat64 x := by
  unfold toFloat64
  by_cases hx : x = 0
  · simp [hx]
  · have hnx : -x ≠ 0 := neg_ne_zero.mpr hx
    rw [if_neg hx, if_neg hnx, abs_neg, neg_div, roundHalfEven_neg]
    push_cast
    ring

/-- Rounding to `float64` keeps a positive number positive. -/
theorem toFloat64_pos (x : ℚ) (hx : 0 < x) : 0 < toFloat64 x := by
  have hne : x ≠ 0 := ne_of_gt hx
  have habs : 0 < |x| := abs_pos.mpr hne
  unfold toFloat64
  rw [if_neg hne]
  have hu : (0 : ℚ) < 2 ^ (Int.log 2 |x| - 52) := zpow_pos (by norm_num) _
  have hlog : ((2 : ℕ) : ℚ) ^ Int.log 2 |x| ≤ |x| := Int.zpow_log_le_self (by norm_num) habs
  have hq : (1 : ℚ) ≤ x / 2 ^ (Int.log 2 |x| - 52) := by
    rw [le_div_iff₀ hu, one_mul]
    have h52 : (2 : ℚ) ^ (Int.log 2 |x| - 52) ≤ 2 ^ Int.log 2 |x| :=
      zpow_le_zpow_right₀ (by norm_num) (by omega)
    have hlog2 : (2 : ℚ) ^ Int.log 2 |x| ≤ |x| := by simpa using hlog
    calc (2 : ℚ) ^ (Int.log 2 |x| - 52) ≤ 2 ^ Int.log 2 |x| := h52
      _ ≤ |x| := hlog2
      _ = x := abs_of_pos hx
  have hfl : (1 : Int) ≤ ⌊x / 2 ^ (Int.log 2 |x| - 52)⌋ := Int.le_floor.mpr (by simpa using hq)
  have hr := floor_le_roundHalfEven (x / 2 ^ (Int.log 2 |x| - 52))
  have hrpos : (0 : ℚ) < (roundHalfEven (x / 2 ^ (Int.log 2 |x| - 52)) : ℚ) := by
    exact_mod_cast (by omega : 0 < roundHalfEven (x / 2 ^ (Int.log 2 |x| - 52)))
  exact mul_pos hrpos hu

/-- An integer below `2^53` in magnitude is a `float64`. -/
theorem toFloat64_intCast (n : Int) (h : |n| < 2 ^ 53) : toFloat64 (n : ℚ) = n := by
  by_cases hn : n = 0
  · simp [hn, toFloat64]
  · have hq : (n : ℚ) ≠ 0 := by exact_mod_cast hn
    have habs : 0 < |(n : ℚ)| := abs_pos.mpr hq
    have h1 : ((2 : ℕ) : ℚ) ^ Int.log 2 |(n : ℚ)| ≤ |(n : ℚ)| :=
      Int.zpow_log_le_self (by norm_num) habs
    have h2 : |(n : ℚ)| < ((2 : ℕ) : ℚ) ^ (Int.log 2 |(n : ℚ)| + 1) :=
      Int.lt_zpow_succ_log_self (by norm_num) _
    have hge : (0 : Int) ≤ Int.log 2 |(n : ℚ)| := by
      apply (Int.zpow_le_iff_le_log (by norm_num) habs).1
      have : (1 : Int) ≤ |n| := Int.one_le_abs hn
      have : (1 : ℚ) ≤ |(n : ℚ)| := by exact_mod_cast this
      simpa using this
    have hlt : Int.log 2 |(n : ℚ)| < 53 := by
      apply (Int.lt_zpow_iff_log_lt (by norm_num) habs).1
      have h3 : |(n : ℚ)| < (2 : ℚ) ^ (53 : ℕ) := by exact_mod_cast h
      have h4 : ((2 : ℕ) : ℚ) ^ (53 : Int) = (2 : ℚ) ^ (53 : ℕ) := by norm_num
      rw [h4]; exact h3
    obtain ⟨k, hk⟩ : ∃ k : ℕ, (k : Int) = 52 - Int.log 2 |(n : ℚ)| :=
      ⟨(52 - Int.log 2 |(n : ℚ)|).toNat, by omega⟩
    have he : Int.log 2 |(n : ℚ)| - 52 = -(k : Int) := by omega
    apply toFloat64_exact (n : ℚ) (Int.log 2 |(n : ℚ)|) (n * 2 ^ k)
      (by simpa using h1) (by simpa using h2)
    rw [he, zpow_neg, zpow_natCast]
    push_cast
    field_simp

/-- The verb `%d` on the opposite of a positive integer. -/
theorem fmtD_neg (n : Int) (hn : 0 < n) : fmtD (-n) = "-" ++ fmtD n := by
  have h1 : -n < 0 := by omega
  have h2 : ¬ n < 0 := by omega
  simp [fmtD, h1, h2]

/-- The verb `%3.1f` on the opposite of a positive number. -/
theorem fmtF1_neg (x : ℚ) (hx : 0 < x) : fmtF1 (-x) = "-" ++ fmtF1 x := by
  have h1 : -x < 0 := by linarith
  have h2 : ¬ x < 0 := by linarith
  simp [fmtF1, h1, h2, abs_neg]

/-- The scaled value of the opposite score is the opposite scaled value. -/
theorem base_neg (s : Int) : ScoreFmt.base (-s) = -ScoreFmt.base s := by
  unfold ScoreFmt.base
  push_cast
  rw [toFloat64_neg, neg_div, toFloat64_neg]

/-- The scaled value of a positive score is positive. -/
theorem base_pos (s : Int) (hs : 0 < s) : 0 < ScoreFmt.base s := by
  unfold ScoreFmt.base
  apply toFloat64_pos
  apply div_pos
  · exact toFloat64_pos _ (by exact_mod_cast hs)
  · norm_num [ScoreMultiplier]

/-- The scaled value of a whole multiple of 10000 below `2^53` in magnitude is
the exact quotient. -/
theorem base_of_multiple (s k : Int) (hs : |s| < 2 ^ 53) (hk : s = 10000 * k) :
    ScoreFmt.base s = k := by
  have hkb : |k| < 2 ^ 53 := by
    have : |s| = 10000 * |k| := by rw [hk, abs_mul]; norm_num
    omega
  unfold ScoreFmt.base
  rw [toFloat64_intCast s hs]
  have : (s : ℚ) / ScoreMultiplier = (k : ℚ) := by
    rw [hk]; push_cast; unfold ScoreMultiplier; field_simp
  rw [this, toFloat64_intCast k hkb]

/-- The branch `d < 5` of `ScoreFmt`. -/
theorem ScoreFmt_plain (ceilLog10 : ℚ → Int) (s : Int)
    (h : |ScoreFmt.base s| = 0 ∨ ceilLog10 |ScoreFmt.base s| < 5) :
    ScoreFmt ceilLog10 s = fmtD ⌈ScoreFmt.base s⌉ := by
  unfold ScoreFmt
  have hb : (decide (|ScoreFmt.base s| = 0)
      || decide (ceilLog10 |ScoreFmt.base s| < 5)) = true := by
    rcases h with h | h <;> simp [h]
  simp only [hb, if_true]

/-- The branches `d ≥ 5` of `ScoreFmt`, for a score that is not zero. -/
theorem ScoreFmt_suffix (ceilLog10 : ℚ → Int) (s : Int)
    (h0 : ScoreFmt.base s ≠ 0)
    (h5 : ¬ ceilLog10 |ScoreFmt.base s| < 5) :
    ScoreFmt ceilLog10 s =
      if ceilLog10 |ScoreFmt.base s| < 8 then
        fmtF1 (toFloat64 (ScoreFmt.base s / ScoreMaxK)) ++ "K"
      else if ceilLog10 |ScoreFmt.base s| < 11 then
        fmtF1 (toFloat64 (ScoreFmt.base s / ScoreMaxM)) ++ "M"
      else if ceilLog10 |ScoreFmt.base s| < 13 then
        fmtF1 (toFloat64 (ScoreFmt.base s / ScoreMaxB)) ++ "B"
      else (if ScoreFmt.base s < 0 then "-" else "") ++ "∞" := by
  unfold ScoreFmt
  have ha : ¬ |ScoreFmt.base s| = 0 := by
    rw [abs_eq_zero]; exact h0
  simp only [ha, h5, decide_False, Bool.false_or, decide_eq_true_eq, if_false, Bool.false_eq_true]

/-- The exact logarithm is at most `k` on the numbers up to `10^k`. -/
theorem ceilLog10Exact_le_iff (x : ℚ) (hx : 0 < x) (k : ℕ) :
    ceilLog10Exact x ≤ (k : Int) ↔ x ≤ 10 ^ k := by
  have h : ceilLog10Exact x = Int.clog 10 x := rfl
  rw [h, ← Int.le_zpow_iff_clog_le (by norm_num) hx]
  simp

/-- The exact logarithm is below `k + 1` on the numbers up to `10^k`. -/
theorem ceilLog10Exact_lt_iff (x : ℚ) (hx : 0 < x) (k : ℕ) :
    ceilLog10Exact x < (k : Int) + 1 ↔ x ≤ 10 ^ k := by
  rw [Int.lt_add_one_iff]
  exact ceilLog10Exact_le_iff x hx k

/-- The scaled value of the score 5000. -/
theorem base_5000 : ScoreFmt.base 5000 = 1 / 2 := by
  unfold ScoreFmt.base
  rw [toFloat64_intCast 5000 (by decide)]
  have h : ((5000 : Int) : ℚ) / ScoreMultiplier = 1 / 2 := by norm_num [ScoreMultiplier]
  rw [h]
  exact toFloat64_exact (1 / 2) (-1) (2 ^ 52) (by norm_num [abs_of_pos])
    (by norm_num [abs_of_pos]) (by norm_num)

/-- The scaled value of the score 115000000. -/
theorem base_115000000 : ScoreFmt.base 115000000 = 11500 := by
  have h := base_of_multiple 115000000 11500 (by decide) (by decide)
  rw [h]; norm_num

/-- The score 115000000 is not in the plain range. -/
theorem d_115000000 : ¬ ceilLog10Exact |ScoreFmt.base 115000000| < 5 := by
  rw [base_115000000, abs_of_pos (by norm_num)]
  intro h
  have := (ceilLog10Exact_lt_iff 11500 (by norm_num) 4).mp h
  norm_num at this

/-- The score 20000 is in the plain range. -/
theorem d_20000 : ceilLog10Exact |ScoreFmt.base 20000| < 5 := by
  have hb : ScoreFmt.base 20000 = 2 := by
    have h := base_of_multiple 20000 2 (by decide) (by decide)
    rw [h]; norm_num
  rw [hb, abs_of_pos (by norm_num)]
  exact (ceilLog10Exact_lt_iff 2 (by norm_num) 4).mpr (by norm_num)

/-- C7 (as amended).  For a positive raw score `s`, with
`base = float64(s) / ScoreMultiplier` and `d = Ceil(Log10(|base|))`, both as
the code computes them in `float64` and whatever `math.Log10` returns: in the
suffixed and infinity ranges (`d ≥ 5`) the text for `-s` is the text for `s`
with a leading minus sign; in the plain range (`d < 5`) the text for `s` is
`⌈base⌉` and the text for `-s` is `-⌊base⌋` (`math.Ceil` rounds both up), so
there the text for `-s` is the text for `s` with a leading minus sign when
`base` is a whole number, as it is for every whole multiple of 10000 below
`2^53`; and the scores `0` and `-0` are both `0`. -/
theorem ScoreFmt_sign (ceilLog10 : ℚ → Int) (s : Int) (hs : 0 < s) :
    (¬ ceilLog10 |ScoreFmt.base s| < 5 →
      ScoreFmt ceilLog10 (-s) = "-" ++ ScoreFmt ceilLog10 s) ∧
    (ceilLog10 |ScoreFmt.base s| < 5 →
      ScoreFmt ceilLog10 s = fmtD ⌈ScoreFmt.base s⌉ ∧
      ScoreFmt ceilLog10 (-s) = fmtD (-⌊ScoreFmt.base s⌋)) ∧
    (ceilLog10 |ScoreFmt.base s| < 5 → (∃ k : Int, ScoreFmt.base s = (k : ℚ)) →
      ScoreFmt ceilLog10 (-s) = "-" ++ ScoreFmt ceilLog10 s) ∧
    (ceilLog10 |ScoreFmt.base s| < 5 → (10000 : Int) ∣ s → s < 2 ^ 53 →
      ScoreFmt ceilLog10 (-s) = "-" ++ ScoreFmt ceilLog10 s) ∧
    ScoreFmt ceilLog10 (-0) = ScoreFmt ceilLog10 0 ∧ ScoreFmt ceilLog10 0 = "0" := by
  have hb : 0 < ScoreFmt.base s := base_pos s hs
  have hplain : ceilLog10 |ScoreFmt.base s| < 5 →
      ScoreFmt ceilLog10 s = fmtD ⌈ScoreFmt.base s⌉ ∧
      ScoreFmt ceilLog10 (-s) = fmtD (-⌊ScoreFmt.base s⌋) := by
    intro h5
    refine ⟨ScoreFmt_plain ceilLog10 s (Or.inr h5), ?_⟩
    rw [ScoreFmt_plain ceilLog10 (-s) (Or.inr (by rw [base_neg, abs_neg]; exact h5))]
    rw [base_neg, Int.ceil_neg]
  have hwhole : ceilLog10 |ScoreFmt.base s| < 5 → (∃ k : Int, ScoreFmt.base s = (k : ℚ)) →
      ScoreFmt ceilLog10 (-s) = "-" ++ ScoreFmt ceilLog10 s := by
    intro h5 hk
    obtain ⟨k, hbk⟩ := hk
    have hkpos : 0 < k := by
      have : (0 : ℚ) < (k : ℚ) := by rw [← hbk]; exact hb
      exact_mod_cast this
    have h := hplain h5
    rw [h.1, h.2, hbk, Int.floor_intCast, Int.ceil_intCast]
    exact fmtD_neg k hkpos
  refine ⟨fun h5 => ?_, hplain, hwhole, fun h5 hdvd hlt => ?_, rfl, ?_⟩
  · have h5n : ¬ ceilLog10 |ScoreFmt.base (-s)| < 5 := by
      rw [base_neg, abs_neg]; exact h5
    have h0n : ScoreFmt.base (-s) ≠ 0 := by
      rw [base_neg]; exact neg_ne_zero.mpr (ne_of_gt hb)
    rw [ScoreFmt_suffix ceilLog10 s (ne_of_gt hb) h5, ScoreFmt_suffix ceilLog10 (-s) h0n h5n]
    simp only [base_neg, abs_neg]
    have hK : 0 < toFloat64 (ScoreFmt.base s / ScoreMaxK) :=
      toFloat64_pos _ (div_pos hb (by norm_num [ScoreMaxK]))
    have hMm : 0 < toFloat64 (ScoreFmt.base s / ScoreMaxM) :=
      toFloat64_pos _ (div_pos hb (by norm_num [ScoreMaxM]))
    have hB : 0 < toFloat64 (ScoreFmt.base s / ScoreMaxB) :=
      toFloat64_pos _ (div_pos hb (by norm_num [ScoreMaxB]))
    have hneg : -(ScoreFmt.base s) < 0 := by linarith
    have hnn : ¬ ScoreFmt.base s < 0 := by linarith
    split_ifs
    · rw [neg_div, toFloat64_neg, fmtF1_neg _ hK, String.append_assoc]
    · rw [neg_div, toFloat64_neg, fmtF1_neg _ hMm, String.append_assoc]
    · rw [neg_div, toFloat64_neg, fmtF1_neg _ hB, String.append_assoc]
    · rfl
  · obtain ⟨k, hk⟩ := hdvd
    have habs : |s| < 2 ^ 53 := by rw [abs_of_pos hs]; exact hlt
    exact hwhole h5 ⟨k, base_of_multiple s k habs hk⟩
  · have h0 : ScoreFmt.base 0 = 0 := by
      simp [ScoreFmt.base, toFloat64]
    rw [ScoreFmt_plain ceilLog10 0 (Or.inl (by simp [h0])), h0]
    simp [fmtD]
    decide

/-- C7 witness: the raw scores 115000000 and -115000000, in the range of the
suffix `K`, and the raw scores 20000 and -20000, in the plain range, with the
exact logarithm. -/
theorem ScoreFmt_sign_witness :
    ScoreFmt ceilLog10Exact (-115000000) = "-" ++ ScoreFmt ceilLog10Exact 115000000 ∧
    ScoreFmt ceilLog10Exact (-20000) = "-" ++ ScoreFmt ceilLog10Exact 20000 :=
  ⟨(ScoreFmt_sign ceilLog10Exact 115000000 (by decide)).1 d_115000000,
   (ScoreFmt_sign ceilLog10Exact 20000 (by decide)).2.2.2.1 d_20000 (by decide) (by decide)⟩

/-- C7 counterexample.  With the exact logarithm, the raw score 5000 is
formatted as `1` and the raw score -5000 as `0`, not as `-1`. -/
theorem ScoreFmt_sign_counterexample :
    ScoreFmt ceilLog10Exact 5000 = "1" ∧ ScoreFmt ceilLog10Exact (-5000) = "0" ∧
    ScoreFmt ceilLog10Exact (-5000) ≠ "-" ++ ScoreFmt ceilLog10Exact 5000 := by
  have h5 : ceilLog10Exact |ScoreFmt.base 5000| < 5 := by
    rw [base_5000, abs_of_pos (by norm_num)]
    exact (ceilLog10Exact_lt_iff (1 / 2) (by norm_num) 4).mpr (by norm_num)
  have h5n : ceilLog10Exact |ScoreFmt.base (-5000)| < 5 := by
    rw [base_neg, abs_neg]; exact h5
  have e1 : ScoreFmt ceilLog10Exact 5000 = "1" := by
    rw [ScoreFmt_plain ceilLog10Exact 5000 (Or.inr h5), base_5000]
    have hc : ⌈((1 : ℚ) / 2)⌉ = 1 := by
      rw [Int.ceil_eq_iff]; norm_num
    rw [hc]; decide
  have e2 : ScoreFmt ceilLog10Exact (-5000) = "0" := by
    rw [ScoreFmt_plain ceilLog10Exact (-5000) (Or.inr h5n), base_neg, base_5000]
    have hc : ⌈(-((1 : ℚ) / 2))⌉ = 0 := by
      rw [Int.ceil_eq_iff]; norm_num
    rw [hc]; decide
  refine ⟨e1, e2, ?_⟩
  rw [e1, e2]
  decide

/-- A decimal digit is not the letter `a`. -/
theorem digitChar_ne_a (n : Nat) : Nat.digitChar (n % 10) ≠ 'a' := by
  have h : n % 10 < 10 := Nat.mod_lt _ (by decide)
  interval_cases (n % 10) <;> decide

/-- The decimal digits of a number hold no letter `a`. -/
theorem toDigitsCore_no_a (fuel : Nat) :
    ∀ (n : Nat) (ds : List Char), (∀ c ∈ ds, c ≠ 'a') →
      ∀ c ∈ Nat.toDigitsCore 10 fuel n ds, c ≠ 'a' := by
  induction fuel with
  | zero => intro n ds hds c hc; exact hds c hc
  | succ fuel ih =>
    intro n ds hds c hc
    have hcons : ∀ d ∈ Nat.digitChar (n % 10) :: ds, d ≠ 'a' := by
      intro d hd
      rcases List.mem_cons.mp hd with h | h
      · rw [h]; exact digitChar_ne_a n
      · exact hds d h
    simp only [Nat.toDigitsCore] at hc
    split at hc
    · exact hcons c hc
    · exact ih _ _ hcons c hc

/-- The text of a natural number holds no letter `a`. -/
theorem repr_no_a (n : Nat) : ∀ c ∈ (Nat.repr n).data, c ≠ 'a' := by
  intro c hc
  exact toDigitsCore_no_a (n + 1) n [] (fun _ h => absurd h (List.not_mem_nil _)) c hc

/-- The text `%.0f` writes holds no letter `a`. -/
theorem fmtF0_no_a (x : ℚ) : ∀ c ∈ (fmtF0 x).data, c ≠ 'a' := by
  intro c hc
  unfold fmtF0 at hc
  rw [String.data_append] at hc
  rcases List.mem_append.mp hc with h | h
  · split at h
    · have : c = '-' := by simpa using h
      rw [this]; decide
    · simp at h
  · exact repr_no_a _ c h

/-- An occurrence of `ago` in `xs ++ ys` lies within `ys` when `xs` holds no
letter `a`. -/
theorem ago_infix_right (xs ys : List Char) (hxs : ∀ c ∈ xs, c ≠ 'a')
    (h : ['a', 'g', 'o'] <:+: xs ++ ys) : ['a', 'g', 'o'] <:+: ys := by
  induction xs with
  | nil => simpa using h
  | cons x xs ih =>
    apply ih (fun c hc => hxs c (List.mem_cons_of_mem _ hc))
    obtain ⟨s, t, hst⟩ := h
    cases s with
    | nil =>
      simp only [List.nil_append, List.cons_append, List.cons.injEq] at hst
      exact absurd hst.1.symm (hxs x (List.mem_cons_self _ _))
    | cons y s =>
      simp only [List.cons_append, List.cons.injEq] at hst
      exact ⟨s, t, by simpa using hst.2⟩

/-- The unit `relativeDate` picks is one of seven words. -/
theorem relativeDateValUnit_unit (hours minutes seconds : ℚ) :
    (relativeDateValUnit hours minutes seconds).2
      ∈ ["second", "minute", "hour", "day", "week", "month", "year"] := by
  unfold relativeDateValUnit
  split_ifs <;> simp

/-- A unit, in the singular or the plural, followed by `in the future`, does
not hold `ago`. -/
theorem unit_future_no_ago :
    ∀ u ∈ ["second", "minute", "hour", "day", "week", "month", "year"],
      ¬ (['a', 'g', 'o'] <:+: (" " ++ u ++ " " ++ "in the future").data) ∧
      ¬ (['a', 'g', 'o'] <:+: (" " ++ (u ++ "s") ++ " " ++ "in the future").data) := by
  decide

/-- The sign of `Duration.Seconds` is the sign of the duration. -/
theorem Seconds_neg_iff (i : Int) : Seconds i < 0 ↔ i < 0 := by
  unfold Seconds
  rw [div_neg_iff]
  constructor
  · rintro (⟨_, h⟩ | ⟨h, _⟩)
    · norm_num at h
    · exact_mod_cast h
  · intro h
    right
    exact ⟨by exact_mod_cast h, by norm_num⟩

/-- An interval is rendered as `now` when it is shorter than thirty seconds,
whatever its sign. -/
theorem abs_Seconds_lt_iff (i : Int) : |Seconds i| < 30 ↔ |i| < 30000000000 := by
  unfold Seconds
  rw [abs_div, div_lt_iff₀ (by norm_num)]
  norm_num
  constructor
  · intro h
    have : ((|i| : Int) : ℚ) < ((30000000000 : Int) : ℚ) := by
      rw [Int.cast_abs]; exact_mod_cast h
    exact_mod_cast this
  · intro h
    have : ((|i| : Int) : ℚ) < ((30000000000 : Int) : ℚ) := by exact_mod_cast h
    rw [Int.cast_abs] at this
    exact_mod_cast this

/-- The text of an interval that is not rendered as `now`. -/
theorem relativeDate_far (i : Int) (h : ¬ |Seconds i| < 30) :
    relativeDate i
      = fmtF0 (relativeDateValUnit |Hours i| |Minutes i| |Seconds i|).1 ++ " "
        ++ pluralize (relativeDateValUnit |Hours i| |Minutes i| |Seconds i|).1
            (relativeDateValUnit |Hours i| |Minutes i| |Seconds i|).2
        ++ " " ++ (if Seconds i < 0 then "in the future" else "ago") := by
  unfold relativeDate
  simp only [h, if_false]

/-- C9 (as amended).  For a timestamp thirty seconds or more in the future the
text ends with `in the future` and does not contain `ago`; a timestamp less
than thirty seconds in the future is rendered as `now`; for a timestamp in the
past that is not rendered as `now` the text ends with `ago`. -/
theorem relativeDate_when (i : Int) :
    (i < 0 → 30000000000 ≤ -i →
      "in the future".data <:+ (relativeDate i).data ∧
      ¬ ("ago".data <:+: (relativeDate i).data)) ∧
    (i < 0 → -i < 30000000000 → relativeDate i = "now") ∧
    (0 < i → relativeDate i ≠ "now" → "ago".data <:+ (relativeDate i).data) := by
  refine ⟨fun hneg hfar => ?_, fun hneg hnear => ?_, fun hpos hnow => ?_⟩
  · have hs : ¬ |Seconds i| < 30 := by
      rw [abs_Seconds_lt_iff, abs_of_neg hneg]; omega
    have hn : Seconds i < 0 := (Seconds_neg_iff i).mpr hneg
    rw [relativeDate_far i hs]
    simp only [hn, if_true]
    constructor
    · rw [String.data_append]
      exact List.suffix_append _ _
    · intro hin
      have hunit := relativeDateValUnit_unit |Hours i| |Minutes i| |Seconds i|
      have hno := unit_future_no_ago _ hunit
      have hin2 : ['a', 'g', 'o'] <:+:
          (fmtF0 (relativeDateValUnit |Hours i| |Minutes i| |Seconds i|).1).data ++
          (" " ++ pluralize (relativeDateValUnit |Hours i| |Minutes i| |Seconds i|).1
            (relativeDateValUnit |Hours i| |Minutes i| |Seconds i|).2
            ++ " " ++ "in the future").data := by
        simpa [String.data_append, List.append_assoc] using hin
      have hin3 := ago_infix_right _ _ (fmtF0_no_a _) hin2
      unfold pluralize at hin3
      split at hin3
      · exact hno.2 hin3
      · exact hno.1 hin3
  · have hs : |Seconds i| < 30 := by
      rw [abs_Seconds_lt_iff, abs_of_neg hneg]; omega
    unfold relativeDate
    simp only [hs, if_true]
  · by_cases hs : |Seconds i| < 30
    · exfalso
      apply hnow
      unfold relativeDate
      simp only [hs, if_true]
    · have hn : ¬ Seconds i < 0 := by
        rw [Seconds_neg_iff]; omega
      rw [relativeDate_far i hs]
      simp only [hn, if_false]
      rw [String.data_append]
      exact List.suffix_append _ _

/-- C9 counterexample.  A timestamp ten seconds in the future (the interval is
-10 s, in nanoseconds) is rendered as `now`, which does not end with
`in the future`. -/
theorem relativeDate_counterexample :
    relativeDate (-10000000000) = "now" ∧
    ¬ ("in the future".data <:+ "now".data) := by
  constructor
  · have hs : |Seconds (-10000000000)| < 30 := by
      rw [abs_Seconds_lt_iff]; decide
    unfold relativeDate
    simp only [hs, if_true]
  · decide

/-- C9 witness: a timestamp two hours in the future. -/
theorem relativeDate_when_witness :
    "in the future".data <:+ (relativeDate (-7200000000000)).data ∧
    ¬ ("ago".data <:+: (relativeDate (-7200000000000)).data) :=
  (relativeDate_when (-7200000000000)).1 (by decide) (by decide)

/-- C10.  `BuildObjectIDFromItem` is a function of the item and the two base
URLs: an empty hash gives the empty ID and `false`; a non-empty hash with a
submitter gives `<AccountsURL>/<escaped handle>/outbox/<escaped hash>` and
`true`; a non-empty hash without a submitter gives
`<BaseURL>/outbox/<escaped hash>` and `true`. -/
theorem BuildObjectIDFromItem_spec (env : Env) (AccountsURL BaseURL : String) (i : Item) :
    (i.Hash = "" → BuildObjectIDFromItem env AccountsURL BaseURL i = ("", false)) ∧
    (∀ submitter : Account, i.Hash ≠ "" → i.SubmittedBy = some submitter →
      BuildObjectIDFromItem env AccountsURL BaseURL i
        = (AccountsURL ++ "/" ++ env.PathEscape submitter.Handle ++ "/outbox/"
            ++ env.PathEscape (env.HashString i.Hash), true)) ∧
    (i.Hash ≠ "" → i.SubmittedBy = none →
      BuildObjectIDFromItem env AccountsURL BaseURL i
        = (BaseURL ++ "/outbox/" ++ env.PathEscape (env.HashString i.Hash), true)) := by
  have hlen : i.Hash.length = 0 ↔ i.Hash = "" := by
    constructor
    · intro h
      apply String.ext
      exact List.length_eq_zero.mp h
    · intro h
      rw [h]; rfl
  refine ⟨fun h => ?_, fun submitter h hs => ?_, fun h hs => ?_⟩
  · simp [BuildObjectIDFromItem, hlen.mpr h]
  · have h0 : ¬ i.Hash.length = 0 := fun hz => h (hlen.mp hz)
    simp [BuildObjectIDFromItem, h0, hs]
  · have h0 : ¬ i.Hash.length = 0 := fun hz => h (hlen.mp hz)
    simp [BuildObjectIDFromItem, h0, hs]

/-- C10 witness: an item with the hash `abc` submitted by `alice`, and the same
item without a submitter. -/
theorem BuildObjectIDFromItem_spec_witness :
    BuildObjectIDFromItem (envWithHost "littr.git") "http://littr.git/api/accounts"
        "http://littr.git/api" { Hash := "abc", SubmittedBy := some storedAccount }
      = ("http://littr.git/api/accounts/alice/outbox/abc", true) ∧
    BuildObjectIDFromItem (envWithHost "littr.git") "http://littr.git/api/accounts"
        "http://littr.git/api" { Hash := "abc", SubmittedBy := none }
      = ("http://littr.git/api/outbox/abc", true) :=
  ⟨(BuildObjectIDFromItem_spec (envWithHost "littr.git") "http://littr.git/api/accounts"
      "http://littr.git/api" { Hash := "abc", SubmittedBy := some storedAccount }).2.1
      storedAccount (by decide) rfl,
   (BuildObjectIDFromItem_spec (envWithHost "littr.git") "http://littr.git/api/accounts"
      "http://littr.git/api" { Hash := "abc", SubmittedBy := none }).2.2 (by decide) rfl⟩

/-- The level methods other than `Infof` hand logrus one entry whose fields are
the pairs of the context, and leave the context `nil`. -/
theorem logger_methods_emit_context (Sprintf : String → List String → String) (l : logger)
    (msg : String) (p : List String) :
    (l.Debug msg = { l := l.l ++ [⟨.DebugLevel, context l, msg⟩], ctx := none }) ∧
    (l.Debugf Sprintf msg p
      = { l := l.l ++ [⟨.DebugLevel, context l, Sprintf msg p⟩], ctx := none }) ∧
    (l.Info msg = { l := l.l ++ [⟨.InfoLevel, context l, msg⟩], ctx := none }) ∧
    (l.Warn msg = { l := l.l ++ [⟨.WarnLevel, context l, msg⟩], ctx := none }) ∧
    (l.Warnf Sprintf msg p
      = { l := l.l ++ [⟨.WarnLevel, context l, Sprintf msg p⟩], ctx := none }) ∧
    (l.Error msg = { l := l.l ++ [⟨.ErrorLevel, context l, msg⟩], ctx := none }) ∧
    (l.Errorf Sprintf msg p
      = { l := l.l ++ [⟨.ErrorLevel, context l, Sprintf msg p⟩], ctx := none }) := by
  refine ⟨rfl, rfl, rfl, rfl, rfl, rfl, rfl⟩

/-- The method `Infof` hands logrus an entry without fields, whatever the
context holds, and leaves the context `nil`. -/
theorem Infof_emits_no_fields (Sprintf : String → List String → String) (l : logger)
    (msg : String) (p : List String) :
    l.Infof Sprintf msg p = { l := l.l ++ [⟨.InfoLevel, [], Sprintf msg p⟩], ctx := none } := by
  rfl

/-- C11 (the code departs from the claim at `Infof`).  On a new logger,
`WithContext(Ctx{"user": "alice"})` stores the pair; `Info("hello")` then
emits an entry with the field `user=alice`, while `Infof("hello")` from the
same state emits an entry with no field: it clears the context before it
logs. -/
theorem Infof_drops_context :
    (newLogger.WithContext [.ctx [("user", "alice")]]).ctx = some [("user", "alice")] ∧
    ((newLogger.WithContext [.ctx [("user", "alice")]]).Info "hello").l
      = [{ level := .InfoLevel, fields := [("user", "alice")], msg := "hello" }] ∧
    ((newLogger.WithContext [.ctx [("user", "alice")]]).Infof plainSprintf "hello" []).l
      = [{ level := .InfoLevel, fields := [], msg := "hello" }] ∧
    ((newLogger.WithContext [.ctx [("user", "alice")]]).Infof plainSprintf "hello" []).l
      ≠ ((newLogger.WithContext [.ctx [("user", "alice")]]).Info "hello").l := by
  decide

end Littr
